import Mathlib

/-!
Verification of the dedup-ledger component (`StateManager` in
`src/bleeping_scanner/state_manager.py`) of the bleeping-computer Discord
bot.  The Python class is shallowly embedded: the in-memory state is the
JSON value produced by `json.load`, the durable file is a small file-system
state, Python exceptions are `Except PyErr`, and `datetime` is modelled by
CPython's proleptic-Gregorian calendar arithmetic (`_ymd2ord`/`_ord2ymd`)
with `isoformat` rendering.  Wall-clock reads (`datetime.now()`) become an
explicit `now : DateTime` parameter; the two `datetime.now()` calls that
happen inside one `mark_posted` (one for the inserted timestamp, one for
the retention cutoff) are modelled as the same instant.
-/

namespace BScan

/-- Python exception kinds raised by the embedded code paths. -/
inductive PyErr where
  | typeError
  | attributeError
deriving DecidableEq

/-- JSON values as produced by `json.load` (numbers restricted to the
integers, which suffices for every behaviour exercised here). -/
inductive Json where
  | null
  | bool (b : Bool)
  | num (n : Int)
  | str (s : String)
  | arr (xs : List Json)
  | obj (kvs : List (String × Json))

/-- Python string `<`: lexicographic comparison of code points. -/
def lexLt : List Char → List Char → Bool
  | [], [] => false
  | [], _ :: _ => true
  | _ :: _, [] => false
  | a :: as, b :: bs => if a < b then true else if b < a then false else lexLt as bs

/-- Python `s < t` on strings. -/
def pyStrLt (s t : String) : Bool := lexLt s.data t.data

/-- Python `s >= t` on strings (total order, so `¬ (s < t)`). -/
def pyStrGe (s t : String) : Bool := ! pyStrLt s t

/-- Python `len(x)` on a JSON value: defined for `str`, `list` and `dict`,
a `TypeError` otherwise. -/
def pyLen : Json → Except PyErr Nat
  | .str s => .ok s.length
  | .arr xs => .ok xs.length
  | .obj kvs => .ok kvs.length
  | _ => .error .typeError

/-- Python equality of a JSON value against a string (only a `str` can
compare equal to a string). -/
def jsonEqStr (x : Json) (s : String) : Bool :=
  match x with
  | .str t => t == s
  | _ => false

/-- Contiguous-substring occurrence in a character list. -/
def containsSub (sub : List Char) : List Char → Bool
  | [] => sub.isEmpty
  | c :: rest => List.isPrefixOf sub (c :: rest) || containsSub sub rest

/-- Python `sub in s` on strings: contiguous-substring containment. -/
def pyStrContains (s sub : String) : Bool := containsSub sub.data s.data

/-- Python `article_id in state` for the JSON shapes `json.load` can
produce: key membership for a dict, element equality for a list,
substring test for a string, `TypeError` otherwise. -/
def pyIn (id : String) (state : Json) : Except PyErr Bool :=
  match state with
  | .obj kvs => .ok (kvs.any (fun kv => kv.1 == id))
  | .arr xs => .ok (xs.any (fun x => jsonEqStr x id))
  | .str s => .ok (pyStrContains s id)
  | _ => .error .typeError

/-! ## CPython calendar model (`datetime` essentials) -/

/-- CPython `_is_leap`. -/
def isLeap (y : Nat) : Bool := y % 4 == 0 && (y % 100 != 0 || y % 400 == 0)

/-- CPython `_DAYS_IN_MONTH` (index 0 is a dummy sentinel). -/
def DAYS_IN_MONTH : List Nat := [0, 31, 28, 31, 30, 31, 30, 31, 31, 30, 31, 30, 31]

/-- CPython `_DAYS_BEFORE_MONTH` (index 0 is a dummy sentinel). -/
def DAYS_BEFORE_MONTH : List Nat :=
  [0, 0, 31, 59, 90, 120, 151, 181, 212, 243, 273, 304, 334]

/-- CPython `_days_before_year`. -/
def daysBeforeYear (y : Nat) : Nat :=
  (y - 1) * 365 + (y - 1) / 4 - (y - 1) / 100 + (y - 1) / 400

/-- CPython `_days_before_month`. -/
def daysBeforeMonth (y m : Nat) : Nat :=
  DAYS_BEFORE_MONTH.getD m 0 + (if 2 < m && isLeap y then 1 else 0)

/-- CPython `_ymd2ord`: proleptic Gregorian ordinal of a date. -/
def ymd2ord (y m d : Nat) : Nat := daysBeforeYear y + daysBeforeMonth y m + d

/-- Days in 400 / 100 / 4 Gregorian years. -/
def DI400Y : Nat := 146097
def DI100Y : Nat := 36524
def DI4Y : Nat := 1461

/-- CPython `_ord2ymd`: date from a proleptic Gregorian ordinal. -/
def ord2ymd (ord : Nat) : Nat × Nat × Nat :=
  let n := ord - 1
  let n400 := n / DI400Y
  let n := n % DI400Y
  let n100 := n / DI100Y
  let n := n % DI100Y
  let n4 := n / DI4Y
  let n := n % DI4Y
  let n1 := n / 365
  let n := n % 365
  let year := n400 * 400 + 1 + n100 * 100 + n4 * 4 + n1
  if n1 == 4 || n100 == 4 then
    (year - 1, 12, 31)
  else
    let leap := n1 == 3 && (n4 != 24 || n100 == 3)
    let month := (n + 50) >>> 5
    let preceding := DAYS_BEFORE_MONTH.getD month 0 + (if 2 < month && leap then 1 else 0)
    if n < preceding then
      let month := month - 1
      let preceding := preceding - (DAYS_IN_MONTH.getD month 0 + (if month == 2 && leap then 1 else 0))
      (year, month, n - preceding + 1)
    else
      (year, month, n - preceding + 1)

/-- A `datetime.datetime` value: the fields CPython stores. -/
structure DateTime where
  year : Nat
  month : Nat
  day : Nat
  hour : Nat
  minute : Nat
  second : Nat
  usec : Nat
deriving DecidableEq

/-- Field ranges of a real `datetime.datetime` (the bounds CPython's
constructor enforces, with `day` relaxed to the uniform bound 31). -/
def DateTime.Valid (t : DateTime) : Prop :=
  1 ≤ t.year ∧ t.year ≤ 9999 ∧ 1 ≤ t.month ∧ t.month ≤ 12 ∧ 1 ≤ t.day ∧ t.day ≤ 31 ∧
    t.hour ≤ 23 ∧ t.minute ≤ 59 ∧ t.second ≤ 59 ∧ t.usec ≤ 999999

/-- Python `t - timedelta(days = k)`: CPython subtracts on the ordinal and keeps
the time-of-day fields. -/
def subDays (t : DateTime) (k : Nat) : DateTime :=
  let o := ymd2ord t.year t.month t.day - k
  let ymd := ord2ymd o
  { t with year := ymd.1, month := ymd.2.1, day := ymd.2.2 }

/-- Chronological (strict) order on datetimes: CPython compares the fields
lexicographically. -/
def chronLt (t u : DateTime) : Prop :=
  t.year < u.year ∨ (t.year = u.year ∧ (t.month < u.month ∨ (t.month = u.month ∧
    (t.day < u.day ∨ (t.day = u.day ∧ (t.hour < u.hour ∨ (t.hour = u.hour ∧
      (t.minute < u.minute ∨ (t.minute = u.minute ∧ (t.second < u.second ∨
        (t.second = u.second ∧ t.usec < u.usec)))))))))))

instance (t : DateTime) : Decidable t.Valid := by
  unfold DateTime.Valid
  infer_instance

instance (t u : DateTime) : Decidable (chronLt t u) := by
  unfold chronLt
  infer_instance

/-- Decimal rendering of `n`, zero-padded on the left to width `w`
(CPython formats each `isoformat` field this way). -/
def pad : Nat → Nat → List Char
  | 0, _ => []
  | w + 1, n => pad w (n / 10) ++ [Nat.digitChar (n % 10)]

/-- Rendering of `datetime.isoformat()` as a character list:
`YYYY-MM-DDTHH:MM:SS[.ffffff]`, the fraction omitted when the microsecond
field is zero. -/
def isoChars (t : DateTime) : List Char :=
  pad 4 t.year ++ '-' :: (pad 2 t.month ++ '-' :: (pad 2 t.day ++ 'T' ::
    (pad 2 t.hour ++ ':' :: (pad 2 t.minute ++ ':' ::
      (pad 2 t.second ++ (if t.usec == 0 then [] else '.' :: pad 6 t.usec))))))

/-- Rendering of `datetime.isoformat()` as a string. -/
def DateTime.isoformat (t : DateTime) : String := ⟨isoChars t⟩

/-! ## The `StateManager` embedding -/

/-- The durable state file as the loader sees it: absent, present but
unreadable/unparsable, or present with a parsed JSON content. -/
inductive FileState where
  | absent
  | unreadable
  | content (j : Json)

/-- The file-system state relevant to the manager: the single state file
plus whether opening it for writing currently fails. -/
structure FS where
  file : FileState
  writeFails : Bool

/-- The `StateManager` object: retention window and the in-memory state
(the JSON value `json.load` produced, usually a string-to-string object). -/
structure SM where
  retention_days : Nat
  state : Json

/-- Embeds `StateManager._load_state`: `{}` when the file is absent; on a read or
parse failure the exception is caught and `{}` returned; on success the
parsed value is logged with `len(state)` — so a value with no `len`
(number, boolean, null) raises a `TypeError` that the same handler turns
into `{}` — and returned verbatim. -/
def _load_state (fs : FS) : Json :=
  match fs.file with
  | .absent => .obj []
  | .unreadable => .obj []
  | .content j => match pyLen j with
    | .ok _ => j
    | .error _ => .obj []

/-- Embeds `StateManager.__init__`: load the state from the file. -/
def load (fs : FS) (retention : Nat) : SM :=
  { retention_days := retention, state := _load_state fs }

/-- Python dict assignment `d[k] = v` on an association list: overwrite
the first entry with that key in place, else append. -/
def setKey : List (String × Json) → String → Json → List (String × Json)
  | [], k, v => [(k, v)]
  | (k', v') :: rest, k, v =>
    if k' == k then (k, v) :: rest else (k', v') :: setKey rest k v

/-- The cutoff string `(now - timedelta(days=retention)).isoformat()`. -/
def cutoffStr (now : DateTime) (retention : Nat) : String :=
  (subDays now retention).isoformat

/-- One step of the retention comprehension: keep the entry when its value
is a string comparing `>=` the cutoff string; a non-string value makes the
comparison raise a `TypeError`. -/
def cleanupFilter (cutoff : String) : List (String × Json) → Except PyErr (List (String × Json))
  | [] => .ok []
  | (k, v) :: rest =>
    match v with
    | .str ts =>
      if pyStrGe ts cutoff then
        (cleanupFilter cutoff rest).map (fun r => (k, .str ts) :: r)
      else
        cleanupFilter cutoff rest
    | _ => .error .typeError

/-- Embeds `StateManager._cleanup_old_entries`: rebuild the dict keeping entries
whose timestamp string compares `>=` the cutoff ISO string.  A non-dict
state has no `.items()` (`AttributeError`); a non-string timestamp fails
the string comparison (`TypeError`). -/
def _cleanup_old_entries (now : DateTime) (retention : Nat) (state : Json) : Except PyErr Json :=
  match state with
  | .obj kvs => (cleanupFilter (cutoffStr now retention) kvs).map Json.obj
  | _ => .error .attributeError

/-- Embeds `StateManager._save_state`: run the cleanup then rewrite the file,
with a catch-all so nothing escapes.  A cleanup failure leaves the
in-memory state and the file unchanged (the comprehension is assigned
atomically); a write failure leaves the file unchanged but keeps the
cleaned in-memory state. -/
def _save_state (now : DateTime) (sm : SM) (fs : FS) : SM × FS :=
  match _cleanup_old_entries now sm.retention_days sm.state with
  | .error _ => (sm, fs)
  | .ok st' =>
    if fs.writeFails then ({ sm with state := st' }, fs)
    else ({ sm with state := st' }, { fs with file := .content st' })

/-- Embeds `StateManager.mark_posted`: `self.state[article_id] = now.isoformat()`
(a `TypeError` when the loaded state is not a dict), then `_save_state`
(which never raises). -/
def mark_posted (now : DateTime) (id : String) (sm : SM) (fs : FS) : Except PyErr (SM × FS) :=
  match sm.state with
  | .obj kvs =>
    .ok (_save_state now { sm with state := .obj (setKey kvs id (.str now.isoformat)) } fs)
  | _ => .error .typeError

/-- Embeds `StateManager.is_posted`: `article_id in self.state`. -/
def is_posted (sm : SM) (fs : FS) (id : String) : Except PyErr (Bool × SM × FS) :=
  (pyIn id sm.state).map (fun b => (b, sm, fs))

/-- A candidate article as `get_new_articles` consumes it: a dict exposing
at least the key `'id'`. -/
structure Article where
  id : String
deriving DecidableEq

/-- The list comprehension inside `get_new_articles`: keep the articles
whose id is not yet posted, propagating any exception from the membership
test. -/
def filterNew (state : Json) : List Article → Except PyErr (List Article)
  | [] => .ok []
  | a :: rest => do
    let b ← pyIn a.id state
    let r ← filterNew state rest
    pure (if b then r else a :: r)

/-- Embeds `StateManager.get_new_articles`. -/
def get_new_articles (sm : SM) (fs : FS) (arts : List Article) :
    Except PyErr (List Article × SM × FS) :=
  (filterNew sm.state arts).map (fun r => (r, sm, fs))

/-- Key membership of an association list (what `pyIn` computes on a
dict). -/
def memKeys (kvs : List (String × Json)) (id : String) : Bool :=
  kvs.any (fun kv => kv.1 == id)

/-- Every value of the association list is a JSON string. -/
def allStr (kvs : List (String × Json)) : Bool :=
  kvs.all (fun kv => match kv.2 with | .str _ => true | _ => false)

/-- The keep-predicate of the retention sweep, as a Boolean on entries. -/
def keepB (cutoff : String) (kv : String × Json) : Bool :=
  match kv.2 with
  | .str ts => pyStrGe ts cutoff
  | _ => false

/-- The entry list of an object state (`[]` for non-objects). -/
def stateEntries (sm : SM) : List (String × Json) :=
  match sm.state with
  | .obj kvs => kvs
  | _ => []

/-- Number of entries carrying a given key. -/
def countKey (kvs : List (String × Json)) (id : String) : Nat :=
  (kvs.filter (fun kv => kv.1 == id)).length

/-- Concrete clock instant used to exercise the theorems on explicit
inputs. -/
def nowW : DateTime := ⟨2025, 10, 12, 3, 4, 5, 6⟩

/-- A two-entry ledger: one entry 31 days old, one 29 days old at
`nowW`. -/
def kvsW : List (String × Json) :=
  [("old", .str (subDays nowW 31).isoformat), ("new", .str (subDays nowW 29).isoformat)]

/-- The entry list left after marking `"id0"` at `nowW` on `kvsW`: the
31-day-old entry is swept, the 29-day-old one and the fresh one remain. -/
def resW : List (String × Json) :=
  [("new", .str (subDays nowW 29).isoformat), ("id0", .str nowW.isoformat)]

/-- The pair `mark_posted nowW "id0"` returns on the `kvsW` ledger. -/
def pW : SM × FS := (⟨30, .obj resW⟩, ⟨.content (.obj resW), false⟩)

/-! ## Lexicographic-order facts -/

theorem lexLt_cons_same (c : Char) (s t : List Char) :
    lexLt (c :: s) (c :: t) = lexLt s t := by
  simp [lexLt, lt_irrefl]

theorem lexLt_append_iff {a c : List Char} (h : a.length = c.length) (b d : List Char) :
    lexLt (a ++ b) (c ++ d) = true ↔ (lexLt a c = true ∨ (a = c ∧ lexLt b d = true)) := by
  induction a generalizing c with
  | nil =>
    have hc : c = [] := by
      cases c with
      | nil => rfl
      | cons x xs => simp at h
    subst hc
    simp [lexLt]
  | cons x xs ih =>
    cases c with
    | nil => simp at h
    | cons y ys =>
      have h' : xs.length = ys.length := by simpa using h
      by_cases hxy : x < y
      · simp [lexLt, List.cons_append, hxy]
      · by_cases hyx : y < x
        · have hne : x ≠ y := fun he => absurd (he ▸ hyx) (lt_irrefl x)
          simp [lexLt, List.cons_append, hxy, hyx, List.cons.injEq, hne]
        · have hxe : x = y := le_antisymm (not_lt.1 hyx) (not_lt.1 hxy)
          subst hxe
          simp only [List.cons_append, lexLt_cons_same, List.cons.injEq, true_and]
          exact ih h'

theorem lexLt_single (a b : Char) : lexLt [a] [b] = true ↔ a < b := by
  by_cases h1 : a < b
  · simp [lexLt, h1]
  · by_cases h2 : b < a <;> simp [lexLt, h1, h2]

theorem pad_length (w n : Nat) : (pad w n).length = w := by
  induction w generalizing n with
  | zero => rfl
  | succ w ih => simp [pad, ih]

theorem digitChar_lt_iff :
    ∀ a b : Fin 10, (Nat.digitChar a < Nat.digitChar b ↔ (a : Nat) < (b : Nat)) := by decide

theorem digitChar_eq_iff :
    ∀ a b : Fin 10, (Nat.digitChar a = Nat.digitChar b ↔ (a : Nat) = (b : Nat)) := by decide

theorem pad_inj {w n m : Nat} (hn : n < 10 ^ w) (hm : m < 10 ^ w) :
    pad w n = pad w m ↔ n = m := by
  induction w generalizing n m with
  | zero =>
    have : n = 0 := by simpa using hn
    have : m = 0 := by simpa using hm
    simp [pad]
    omega
  | succ w ih =>
    have hn' : n / 10 < 10 ^ w := by
      rw [Nat.div_lt_iff_lt_mul (by norm_num)]
      calc n < 10 ^ (w + 1) := hn
        _ = 10 ^ w * 10 := pow_succ 10 w
    have hm' : m / 10 < 10 ^ w := by
      rw [Nat.div_lt_iff_lt_mul (by norm_num)]
      calc m < 10 ^ (w + 1) := hm
        _ = 10 ^ w * 10 := pow_succ 10 w
    constructor
    · intro he
      rw [pad, pad] at he
      obtain ⟨h1, h2⟩ := List.append_inj he (by rw [pad_length, pad_length])
      have e1 : n / 10 = m / 10 := (ih hn' hm').1 h1
      have e2 : n % 10 = m % 10 := by
        have h2' : Nat.digitChar (n % 10) = Nat.digitChar (m % 10) := by
          injection h2
        simpa using
          (digitChar_eq_iff ⟨n % 10, Nat.mod_lt _ (by norm_num)⟩
            ⟨m % 10, Nat.mod_lt _ (by norm_num)⟩).1 h2'
      omega
    · intro he
      subst he
      rfl

theorem pad_lt {w n m : Nat} (hn : n < 10 ^ w) (hm : m < 10 ^ w) :
    lexLt (pad w n) (pad w m) = true ↔ n < m := by
  induction w generalizing n m with
  | zero =>
    have : n = 0 := by simpa using hn
    have : m = 0 := by simpa using hm
    simp [pad, lexLt]
    omega
  | succ w ih =>
    have hn' : n / 10 < 10 ^ w := by
      rw [Nat.div_lt_iff_lt_mul (by norm_num)]
      calc n < 10 ^ (w + 1) := hn
        _ = 10 ^ w * 10 := pow_succ 10 w
    have hm' : m / 10 < 10 ^ w := by
      rw [Nat.div_lt_iff_lt_mul (by norm_num)]
      calc m < 10 ^ (w + 1) := hm
        _ = 10 ^ w * 10 := pow_succ 10 w
    rw [pad, pad, lexLt_append_iff (by rw [pad_length, pad_length]), ih hn' hm',
      pad_inj hn' hm']
    have hsingle :
        lexLt [Nat.digitChar (n % 10)] [Nat.digitChar (m % 10)] = true ↔ n % 10 < m % 10 := by
      rw [lexLt_single]
      simpa using
        digitChar_lt_iff ⟨n % 10, Nat.mod_lt _ (by norm_num)⟩
          ⟨m % 10, Nat.mod_lt _ (by norm_num)⟩
    rw [hsingle]
    omega

theorem lexLt_usecTail {a b : Nat} (ha : a ≤ 999999) (hb : b ≤ 999999) :
    lexLt (if a == 0 then [] else '.' :: pad 6 a) (if b == 0 then [] else '.' :: pad 6 b)
      = true ↔ a < b := by
  have ha' : a < 10 ^ 6 := by norm_num; omega
  have hb' : b < 10 ^ 6 := by norm_num; omega
  by_cases h0 : a = 0 <;> by_cases h1 : b = 0
  · subst h0; subst h1
    simp [lexLt]
  · subst h0
    simp [h1, lexLt]
    omega
  · subst h1
    simp [h0, lexLt]
  · rw [if_neg (by simp [h0]), if_neg (by simp [h1]), lexLt_cons_same, pad_lt ha' hb']

theorem iso_lexLt_iff {t u : DateTime} (ht : t.Valid) (hu : u.Valid) :
    lexLt (isoChars t) (isoChars u) = true ↔ chronLt t u := by
  obtain ⟨hy1, hy2, hmo1, hmo2, hd1, hd2, hh, hmi, hs, hus⟩ := ht
  obtain ⟨gy1, gy2, gmo1, gmo2, gd1, gd2, gh, gmi, gs, gus⟩ := hu
  have p4 : (10 : Nat) ^ 4 = 10000 := by norm_num
  have p2 : (10 : Nat) ^ 2 = 100 := by norm_num
  have hy : t.year < 10 ^ 4 := by omega
  have gy : u.year < 10 ^ 4 := by omega
  have hmo : t.month < 10 ^ 2 := by omega
  have gmo : u.month < 10 ^ 2 := by omega
  have hd : t.day < 10 ^ 2 := by omega
  have gd : u.day < 10 ^ 2 := by omega
  have hho : t.hour < 10 ^ 2 := by omega
  have gho : u.hour < 10 ^ 2 := by omega
  have hmin : t.minute < 10 ^ 2 := by omega
  have gmin : u.minute < 10 ^ 2 := by omega
  have hsec : t.second < 10 ^ 2 := by omega
  have gsec : u.second < 10 ^ 2 := by omega
  have L : ∀ w a b : Nat, (pad w a).length = (pad w b).length := fun w a b => by
    rw [pad_length, pad_length]
  rw [isoChars, isoChars,
    lexLt_append_iff (L 4 _ _), lexLt_cons_same,
    lexLt_append_iff (L 2 _ _), lexLt_cons_same,
    lexLt_append_iff (L 2 _ _), lexLt_cons_same,
    lexLt_append_iff (L 2 _ _), lexLt_cons_same,
    lexLt_append_iff (L 2 _ _), lexLt_cons_same,
    lexLt_append_iff (L 2 _ _),
    pad_lt hy gy, pad_inj hy gy,
    pad_lt hmo gmo, pad_inj hmo gmo,
    pad_lt hd gd, pad_inj hd gd,
    pad_lt hho gho, pad_inj hho gho,
    pad_lt hmin gmin, pad_inj hmin gmin,
    pad_lt hsec gsec, pad_inj hsec gsec,
    lexLt_usecTail hus gus]
  exact Iff.rfl

/-- The retention comparison on rendered timestamps agrees with
chronological order: `ts >= cutoff` holds iff `ts` is not older. -/
theorem pyStrGe_iso_iff {t u : DateTime} (ht : t.Valid) (hu : u.Valid) :
    pyStrGe t.isoformat u.isoformat = true ↔ ¬ chronLt t u := by
  have e : pyStrGe t.isoformat u.isoformat = ! lexLt (isoChars t) (isoChars u) := rfl
  constructor
  · intro h hc
    have hl := (iso_lexLt_iff ht hu).2 hc
    rw [e, hl] at h
    simp at h
  · intro h
    rw [e]
    cases hL : lexLt (isoChars t) (isoChars u) with
    | false => rfl
    | true => exact absurd ((iso_lexLt_iff ht hu).1 hL) h

/-! ## Association-list and pipeline lemmas -/

theorem allStr_cons {k : String} {v : Json} {rest : List (String × Json)} :
    allStr ((k, v) :: rest) = true ↔
      (match v with | .str _ => true | _ => false) = true ∧ allStr rest = true := by
  simp [allStr, List.all_cons]

theorem allStr_setKey (kvs : List (String × Json)) (id s : String)
    (h : allStr kvs = true) : allStr (setKey kvs id (.str s)) = true := by
  induction kvs with
  | nil => rfl
  | cons kv rest ih =>
    obtain ⟨k, v⟩ := kv
    obtain ⟨h1, h2⟩ := allStr_cons.1 h
    by_cases hk : k == id
    · simp [setKey, hk, allStr_cons, h2]
    · simp only [setKey, hk, if_false]
      exact allStr_cons.2 ⟨h1, ih h2⟩

theorem setKey_mem (kvs : List (String × Json)) (id : String) (v : Json) :
    (id, v) ∈ setKey kvs id v := by
  induction kvs with
  | nil => simp [setKey]
  | cons kv rest ih =>
    obtain ⟨k, v'⟩ := kv
    by_cases hk : k == id
    · simp [setKey, hk]
    · simp only [setKey, hk, if_false]
      exact List.mem_cons_of_mem _ ih

theorem setKey_mem_of_mem {kvs : List (String × Json)} {kv : String × Json}
    (id : String) (v : Json) (hne : kv.1 ≠ id) (h : kv ∈ kvs) :
    kv ∈ setKey kvs id v := by
  induction kvs with
  | nil => simp at h
  | cons kv' rest ih =>
    obtain ⟨k, v'⟩ := kv'
    rcases List.mem_cons.1 h with he | hm
    · subst he
      have hk : (k == id) = false := by
        simpa using hne
      simp [setKey, hk]
    · by_cases hk : k == id
      · simp [setKey, hk]
        right
        exact hm
      · simp only [setKey, hk, if_false]
        exact List.mem_cons_of_mem _ (ih hm)

theorem mem_setKey {kvs : List (String × Json)} {kv : String × Json} {id : String} {v : Json}
    (h : kv ∈ setKey kvs id v) : kv = (id, v) ∨ kv ∈ kvs := by
  induction kvs with
  | nil => simpa [setKey] using h
  | cons kv' rest ih =>
    obtain ⟨k, v'⟩ := kv'
    by_cases hk : k == id
    · simp [setKey, hk] at h
      rcases h with he | hm
      · exact Or.inl (by simp [he])
      · exact Or.inr (List.mem_cons_of_mem _ hm)
    · simp only [setKey, hk, if_false] at h
      rcases List.mem_cons.1 h with he | hm
      · exact Or.inr (he ▸ List.mem_cons_self _ _)
      · rcases ih hm with h1 | h2
        · exact Or.inl h1
        · exact Or.inr (List.mem_cons_of_mem _ h2)

theorem cleanupFilter_allStr (cutoff : String) (kvs : List (String × Json))
    (h : allStr kvs = true) :
    cleanupFilter cutoff kvs = .ok (kvs.filter (keepB cutoff)) := by
  induction kvs with
  | nil => rfl
  | cons kv rest ih =>
    obtain ⟨k, v⟩ := kv
    obtain ⟨h1, h2⟩ := allStr_cons.1 h
    cases v with
    | str ts =>
      by_cases hk : pyStrGe ts cutoff
      · simp [cleanupFilter, hk, ih h2, List.filter_cons, keepB, Except.map]
      · simp [cleanupFilter, hk, ih h2, List.filter_cons, keepB, Except.map]
    | null => simp at h1
    | bool b => simp at h1
    | num n => simp at h1
    | arr xs => simp at h1
    | obj kvs' => simp at h1

/-- Unfolding of a `mark_posted` call on a dict state whose values are all
strings: the insert happens, the sweep filters by the string comparison,
and the file is rewritten exactly when writing succeeds. -/
theorem mark_posted_obj (now : DateTime) (id : String) (r : Nat)
    (kvs : List (String × Json)) (fs : FS) (h : allStr kvs = true) :
    mark_posted now id ⟨r, .obj kvs⟩ fs =
      .ok (⟨r, .obj ((setKey kvs id (.str now.isoformat)).filter (keepB (cutoffStr now r)))⟩,
        if fs.writeFails then fs
        else { fs with
          file := .content
            (.obj ((setKey kvs id (.str now.isoformat)).filter (keepB (cutoffStr now r)))) }) := by
  have hstr : allStr (setKey kvs id (.str now.isoformat)) = true :=
    allStr_setKey kvs id now.isoformat h
  by_cases hw : fs.writeFails
  · simp [mark_posted, _save_state, _cleanup_old_entries,
      cleanupFilter_allStr _ _ hstr, hw, Except.map]
  · simp [mark_posted, _save_state, _cleanup_old_entries,
      cleanupFilter_allStr _ _ hstr, hw, Except.map]

theorem memKeys_of_mem {kvs : List (String × Json)} {k : String} {v : Json}
    (h : (k, v) ∈ kvs) : memKeys kvs k = true := by
  rw [memKeys, List.any_eq_true]
  exact ⟨(k, v), h, by simp⟩

theorem filterNew_obj (kvs : List (String × Json)) (arts : List Article) :
    filterNew (.obj kvs) arts = .ok (arts.filter (fun a => ! memKeys kvs a.id)) := by
  induction arts with
  | nil => rfl
  | cons a rest ih =>
    simp only [filterNew, pyIn, bind, Except.bind, pure, Except.pure, ih,
      List.filter_cons, memKeys]
    by_cases h : kvs.any (fun kv => kv.1 == a.id) <;> simp [h]

theorem allStr_filter (p : String × Json → Bool) {kvs : List (String × Json)}
    (h : allStr kvs = true) : allStr (kvs.filter p) = true := by
  induction kvs with
  | nil => rfl
  | cons kv rest ih =>
    obtain ⟨h1, h2⟩ := allStr_cons.1 h
    rw [List.filter_cons]
    by_cases hp : p kv
    · simp only [hp, if_true]
      exact allStr_cons.2 ⟨h1, ih h2⟩
    · simp only [hp, if_false]
      exact ih h2

theorem countKey_setKey {kvs : List (String × Json)} (id : String) (v : Json)
    (h : countKey kvs id ≤ 1) : countKey (setKey kvs id v) id = 1 := by
  induction kvs with
  | nil => simp [setKey, countKey]
  | cons kv rest ih =>
    obtain ⟨k, v'⟩ := kv
    by_cases hk : k == id
    · have he : (id == id) = true := by simp
      have hr : countKey rest id = 0 := by
        simpa [countKey, List.filter_cons, hk] using h
      simp [setKey, hk, countKey, List.filter_cons, he]
      simpa [countKey] using hr
    · have h' : countKey rest id ≤ 1 := by
        simpa [countKey, List.filter_cons, hk] using h
      simpa [setKey, hk, countKey, List.filter_cons] using ih h'

theorem countKey_filter_le (p : String × Json → Bool) (kvs : List (String × Json))
    (id : String) : countKey (kvs.filter p) id ≤ countKey kvs id := by
  induction kvs with
  | nil => simp [countKey]
  | cons kv rest ih =>
    rw [List.filter_cons]
    by_cases hp : p kv
    · simp only [hp, if_true]
      by_cases hk : kv.1 == id
      · simpa [countKey, List.filter_cons, hk] using ih
      · simpa [countKey, List.filter_cons, hk] using ih
    · simp only [hp, if_false]
      by_cases hk : kv.1 == id
      · have hle : countKey rest id ≤ countKey (kv :: rest) id := by
          simp only [countKey, List.filter_cons, hk, if_true, List.length_cons]
          exact Nat.le_succ _
        exact le_trans ih hle
      · simpa [countKey, List.filter_cons, hk] using ih

theorem countKey_pos_of_mem {kvs : List (String × Json)} {id : String} {v : Json}
    (h : (id, v) ∈ kvs) : 1 ≤ countKey kvs id := by
  induction kvs with
  | nil => simp at h
  | cons kv rest ih =>
    rcases List.mem_cons.1 h with he | hm
    · simp [countKey, List.filter_cons, ← he]
    · by_cases hk : kv.1 == id
      · simp [countKey, List.filter_cons, hk]
      · simpa [countKey, List.filter_cons, hk] using ih hm

theorem pyIn_isOk_of_lenOk {j : Json} (h : (pyLen j).isOk = true) (id : String) :
    (pyIn id j).isOk = true := by
  cases j with
  | null => simp [pyLen, Except.isOk, Except.toBool] at h
  | bool b => simp [pyLen, Except.isOk, Except.toBool] at h
  | num n => simp [pyLen, Except.isOk, Except.toBool] at h
  | str s => rfl
  | arr xs => rfl
  | obj kvs => rfl

theorem pyLen_load_isOk (fs : FS) : (pyLen (_load_state fs)).isOk = true := by
  cases hf : fs.file with
  | absent => simp [_load_state, hf, pyLen, Except.isOk, Except.toBool]
  | unreadable => simp [_load_state, hf, pyLen, Except.isOk, Except.toBool]
  | content j =>
    cases j <;> simp [_load_state, hf, pyLen, Except.isOk, Except.toBool]

theorem filterNew_isOk {j : Json} (h : ∀ id, (pyIn id j).isOk = true)
    (arts : List Article) : (filterNew j arts).isOk = true := by
  induction arts with
  | nil => rfl
  | cons a rest ih =>
    have ha := h a.id
    cases hp : pyIn a.id j with
    | error e => rw [hp] at ha; simp [Except.isOk, Except.toBool] at ha
    | ok b =>
      cases hr : filterNew j rest with
      | error e => rw [hr] at ih; simp [Except.isOk, Except.toBool] at ih
      | ok l =>
        simp [filterNew, hp, hr, Except.isOk, Except.toBool, bind, Except.bind,
          pure, Except.pure]

theorem is_posted_content_obj (L : List (String × Json)) (w : Bool) (r : Nat)
    (id : String) (h : memKeys L id = true) :
    is_posted (load ⟨.content (.obj L), w⟩ r) ⟨.content (.obj L), w⟩ id =
      .ok (true, load ⟨.content (.obj L), w⟩ r, ⟨.content (.obj L), w⟩) := by
  have e : pyIn id (load (⟨.content (.obj L), w⟩ : FS) r).state = .ok (memKeys L id) := rfl
  rw [is_posted, e, h]
  rfl

/-! ## The claims -/

/-- C1: `get_new_articles` returns exactly the order-preserving
subsequence of the candidates whose id is not a key of the ledger; in
particular, on the ledger `{A, C}` and the candidates `[A, B, C, D]` it
returns `[B, D]`. -/
theorem C1_filter_new_correct :
    (∀ (kvs : List (String × Json)) (r : Nat) (fs : FS) (arts : List Article),
      get_new_articles ⟨r, .obj kvs⟩ fs arts =
        .ok (arts.filter (fun a => ! memKeys kvs a.id), ⟨r, .obj kvs⟩, fs)) ∧
    get_new_articles ⟨30, .obj [("A", .str "t1"), ("C", .str "t2")]⟩ ⟨.absent, false⟩
        [⟨"A"⟩, ⟨"B"⟩, ⟨"C"⟩, ⟨"D"⟩] =
      .ok ([⟨"B"⟩, ⟨"D"⟩], ⟨30, .obj [("A", .str "t1"), ("C", .str "t2")]⟩,
        ⟨.absent, false⟩) := by
  constructor
  · intro kvs r fs arts
    rw [get_new_articles]
    show Except.map _ (filterNew (.obj kvs) arts) = _
    rw [filterNew_obj]
    rfl
  · rfl

/-- C5: when the state file is absent, or unreadable, or unparsable,
`_load_state` returns the empty ledger (the failure is caught, never
re-raised), and `is_posted` on the freshly loaded manager answers `false`
for every id. -/
theorem C5_load_failure_fresh :
    (∀ w : Bool, _load_state ⟨.absent, w⟩ = .obj []) ∧
    (∀ w : Bool, _load_state ⟨.unreadable, w⟩ = .obj []) ∧
    (∀ (w : Bool) (r : Nat) (id : String),
      is_posted (load ⟨.absent, w⟩ r) ⟨.absent, w⟩ id =
        .ok (false, load ⟨.absent, w⟩ r, ⟨.absent, w⟩)) ∧
    (∀ (w : Bool) (r : Nat) (id : String),
      is_posted (load ⟨.unreadable, w⟩ r) ⟨.unreadable, w⟩ id =
        .ok (false, load ⟨.unreadable, w⟩ r, ⟨.unreadable, w⟩)) :=
  ⟨fun _ => rfl, fun _ => rfl, fun _ _ _ => rfl, fun _ _ _ => rfl⟩

/-- C9: `is_posted` and `get_new_articles` are pure with respect to both
the in-memory ledger and the file system: whenever either returns, the
manager and file-system components of the result are exactly the inputs
(and on an exception nothing was touched either). -/
theorem C9_pure_ops_frame (sm : SM) (fs : FS) (id : String) (arts : List Article) :
    ((is_posted sm fs id).toOption.elim (sm, fs) (fun r => (r.2.1, r.2.2))) = (sm, fs) ∧
    ((get_new_articles sm fs arts).toOption.elim (sm, fs) (fun r => (r.2.1, r.2.2)))
      = (sm, fs) := by
  refine ⟨?_, ?_⟩
  · cases h : pyIn id sm.state with
    | error e => simp [is_posted, h, Except.map, Except.toOption]
    | ok b => simp [is_posted, h, Except.map, Except.toOption]
  · cases h : filterNew sm.state arts with
    | error e => simp [get_new_articles, h, Except.map, Except.toOption]
    | ok l => simp [get_new_articles, h, Except.map, Except.toOption]

/-- C10 counterexample: the state file holding the syntactically valid
JSON document `5` is not loaded verbatim — `len(5)` raises a `TypeError`
inside the `try`, so `_load_state` degrades to the empty ledger. -/
theorem C10_counterexample :
    _load_state ⟨.content (.num 5), false⟩ = .obj [] ∧ Json.obj [] ≠ Json.num 5 :=
  ⟨rfl, fun h => Json.noConfusion h⟩

/-- C10 amended: a successfully parsed top-level value is returned
verbatim with no shape validation when it has a `len` (object, array or
string); a top-level number, boolean or null instead degrades to the
empty ledger, because the `len(state)` in the loader's logging line raises
a `TypeError` that the surrounding handler converts to `{}`. -/
theorem C10_load_verbatim_iff_len :
    (∀ (j : Json) (w : Bool), (pyLen j).isOk = true → _load_state ⟨.content j, w⟩ = j) ∧
    (∀ (n : Int) (w : Bool), _load_state ⟨.content (.num n), w⟩ = .obj []) ∧
    (∀ (b w : Bool), _load_state ⟨.content (.bool b), w⟩ = .obj []) ∧
    (∀ w : Bool, _load_state ⟨.content .null, w⟩ = .obj []) := by
  refine ⟨?_, fun _ _ => rfl, fun _ _ => rfl, fun _ => rfl⟩
  intro j w h
  cases j with
  | null => simp [pyLen, Except.isOk, Except.toBool] at h
  | bool b => simp [pyLen, Except.isOk, Except.toBool] at h
  | num n => simp [pyLen, Except.isOk, Except.toBool] at h
  | str s => rfl
  | arr xs => rfl
  | obj kvs => rfl

/-- C10 witness: a JSON array has a `len`, and is indeed returned
verbatim. -/
theorem C10_load_verbatim_iff_len_witness :
    (pyLen (Json.arr [.str "x"])).isOk = true ∧
    _load_state ⟨.content (.arr [.str "x"]), false⟩ = .arr [.str "x"] :=
  ⟨rfl, C10_load_verbatim_iff_len.1 (.arr [.str "x"]) false rfl⟩

/-- C6 counterexample: from a state file holding the valid JSON `["x"]`
the loader produces a list-shaped ledger, and `mark_posted` on it raises
a `TypeError` to its caller. -/
theorem C6_counterexample :
    mark_posted nowW "a" (load ⟨.content (.arr [.str "x"]), false⟩ 30)
      ⟨.content (.arr [.str "x"]), false⟩ = .error .typeError := rfl

/-- C6 amended: `_load_state` never raises, and `is_posted` and
`get_new_articles` never raise on any state the loader can produce; but
`mark_posted` only has this property on dict states — on a loaded list or
string state its item assignment raises `TypeError`. -/
theorem C6_no_raise :
    (∀ fs : FS, (pyLen (_load_state fs)).isOk = true) ∧
    (∀ (fs : FS) (r : Nat) (id : String),
      (is_posted (load fs r) fs id).isOk = true) ∧
    (∀ (fs : FS) (r : Nat) (arts : List Article),
      (get_new_articles (load fs r) fs arts).isOk = true) ∧
    (∀ (now : DateTime) (id : String) (r : Nat) (kvs : List (String × Json)) (fs : FS),
      (mark_posted now id ⟨r, .obj kvs⟩ fs).isOk = true) := by
  refine ⟨pyLen_load_isOk, ?_, ?_, ?_⟩
  · intro fs r id
    have h := pyIn_isOk_of_lenOk (pyLen_load_isOk fs) id
    rw [is_posted]
    cases hp : pyIn id (load fs r).state with
    | error e =>
      rw [show (load fs r).state = _load_state fs from rfl] at hp
      rw [hp] at h
      simp [Except.isOk, Except.toBool] at h
    | ok b => simp [hp, Except.map, Except.isOk, Except.toBool]
  · intro fs r arts
    have h := filterNew_isOk (pyIn_isOk_of_lenOk (pyLen_load_isOk fs)) arts
    rw [get_new_articles]
    cases hp : filterNew (load fs r).state arts with
    | error e =>
      rw [show (load fs r).state = _load_state fs from rfl] at hp
      rw [hp] at h
      simp [Except.isOk, Except.toBool] at h
    | ok l => simp [hp, Except.map, Except.isOk, Except.toBool]
  · intro now id r kvs fs
    rw [mark_posted]
    rfl

/-- C2 counterexample: at clock `nowW` with the default 30-day retention,
the sweep silently drops the entry whose `posted_at` is the unparsable
string `""` — the entry is gone after the sweep runs, refuting the claim
that malformed timestamps are always kept. -/
theorem C2_counterexample :
    _cleanup_old_entries nowW 30 (.obj [("A", .str "")]) = .ok (.obj []) := rfl

/-- C2 amended: the sweep parses nothing — it keeps an entry exactly when
its `posted_at` string compares `>=` the cutoff ISO string in code-point
order, so an unparsable timestamp survives iff it happens to compare at
least the cutoff (e.g. `"zzz"` is kept) and is silently dropped when it
compares below it (e.g. `""` is dropped). -/
theorem C2_sweep_is_lexicographic :
    (∀ (now : DateTime) (r : Nat) (kvs : List (String × Json)),
      allStr kvs = true →
        _cleanup_old_entries now r (.obj kvs) =
          .ok (.obj (kvs.filter (keepB (cutoffStr now r))))) ∧
    _cleanup_old_entries nowW 30 (.obj [("weird", .str "zzz")]) =
      .ok (.obj [("weird", .str "zzz")]) ∧
    _cleanup_old_entries nowW 30 (.obj [("weird", .str "")]) = .ok (.obj []) := by
  refine ⟨?_, rfl, rfl⟩
  intro now r kvs h
  simp [_cleanup_old_entries, cleanupFilter_allStr _ _ h, Except.map]

/-- C2 witness: the amended sweep characterisation evaluated on a
concrete one-entry ledger. -/
theorem C2_sweep_is_lexicographic_witness :
    allStr [("weird", Json.str "zzz")] = true ∧
    _cleanup_old_entries nowW 30 (.obj [("weird", .str "zzz")]) =
      .ok (.obj (([("weird", Json.str "zzz")]).filter (keepB (cutoffStr nowW 30)))) :=
  ⟨rfl, C2_sweep_is_lexicographic.1 nowW 30 _ rfl⟩

/-- C3: with `retention_days = 30`, on a string-valued dict ledger and a
valid clock, after a `mark_posted` call's persist the ledger holds no
entry whose ISO-8601 `posted_at` is chronologically older than
`now - 30 days`, and every entry at least as recent as the cutoff whose
key is not the one just marked is retained. -/
theorem C3_retention_sweep (now : DateTime) (id : String)
    (kvs : List (String × Json)) (fs : FS) (p : SM × FS)
    (hstr : allStr kvs = true) (hnow : now.Valid) (hcut : (subDays now 30).Valid)
    (hrun : mark_posted now id ⟨30, .obj kvs⟩ fs = .ok p) :
    (∀ (k : String) (t : DateTime), t.Valid →
      (k, .str t.isoformat) ∈ stateEntries p.1 → ¬ chronLt t (subDays now 30)) ∧
    (∀ (k : String) (t : DateTime), t.Valid → k ≠ id →
      ¬ chronLt t (subDays now 30) → (k, .str t.isoformat) ∈ kvs →
        (k, .str t.isoformat) ∈ stateEntries p.1) := by
  rw [mark_posted_obj now id 30 kvs fs hstr] at hrun
  injection hrun with h'
  subst h'
  constructor
  · intro k t ht hmem
    have hmem' : (k, Json.str t.isoformat) ∈
        (setKey kvs id (.str now.isoformat)).filter (keepB (cutoffStr now 30)) := hmem
    have hkeep := (List.mem_filter.1 hmem').2
    have hge : pyStrGe t.isoformat (subDays now 30).isoformat = true := by
      simpa [keepB, cutoffStr] using hkeep
    exact (pyStrGe_iso_iff ht hcut).1 hge
  · intro k t ht hk hnlt hmem
    show (k, Json.str t.isoformat) ∈
      (setKey kvs id (.str now.isoformat)).filter (keepB (cutoffStr now 30))
    refine List.mem_filter.2 ⟨setKey_mem_of_mem id _ hk hmem, ?_⟩
    show keepB (cutoffStr now 30) (k, .str t.isoformat) = true
    simpa [keepB, cutoffStr] using (pyStrGe_iso_iff ht hcut).2 hnlt

/-- C3 witness: marking `"id0"` at `nowW` on the two-entry ledger `kvsW`
removes the 31-day-old entry and keeps the 29-day-old one. -/
theorem C3_retention_sweep_witness :
    ("old", Json.str (subDays nowW 31).isoformat) ∉ stateEntries pW.1 ∧
    ("new", Json.str (subDays nowW 29).isoformat) ∈ stateEntries pW.1 := by
  have h := C3_retention_sweep nowW "id0" kvsW ⟨.absent, false⟩ pW (by decide)
    (by decide) (by decide) rfl
  refine ⟨fun hmem => absurd (by decide : chronLt (subDays nowW 31) (subDays nowW 30))
    (h.1 "old" (subDays nowW 31) (by decide) hmem), ?_⟩
  exact h.2 "new" (subDays nowW 29) (by decide) (by decide) (by decide)
    (List.mem_cons_of_mem _ (List.mem_cons_self _ _))

/-- C4: when the write succeeds, on a string-valued dict ledger with a
sane clock, a fresh load of the state file right after `mark_posted id`
(simulating a process restart) yields a manager on which `is_posted id`
answers true. -/
theorem C4_write_through (now : DateTime) (id : String) (r : Nat)
    (kvs : List (String × Json)) (fs : FS) (p : SM × FS)
    (hstr : allStr kvs = true) (hnow : now.Valid) (hcut : (subDays now r).Valid)
    (hsane : ¬ chronLt now (subDays now r)) (hw : fs.writeFails = false)
    (hrun : mark_posted now id ⟨r, .obj kvs⟩ fs = .ok p) :
    is_posted (load p.2 r) p.2 id = .ok (true, load p.2 r, p.2) := by
  rw [mark_posted_obj now id r kvs fs hstr, hw] at hrun
  rw [if_neg (by simp)] at hrun
  injection hrun with h'
  subst h'
  have hmem : (id, Json.str now.isoformat) ∈
      (setKey kvs id (.str now.isoformat)).filter (keepB (cutoffStr now r)) := by
    refine List.mem_filter.2 ⟨setKey_mem kvs id _, ?_⟩
    show keepB (cutoffStr now r) (id, .str now.isoformat) = true
    simpa [keepB, cutoffStr] using (pyStrGe_iso_iff hnow hcut).2 hsane
  have hkeys : memKeys
      ((setKey kvs id (.str now.isoformat)).filter (keepB (cutoffStr now r))) id = true :=
    memKeys_of_mem hmem
  exact is_posted_content_obj _ false r id hkeys

/-- C4 witness: a concrete record-then-reload round trip reports the id
as posted. -/
theorem C4_write_through_witness :
    is_posted (load (⟨.content (.obj [("b", Json.str nowW.isoformat)]), false⟩ : FS) 30)
        ⟨.content (.obj [("b", Json.str nowW.isoformat)]), false⟩ "b" =
      .ok (true, load ⟨.content (.obj [("b", Json.str nowW.isoformat)]), false⟩ 30,
        ⟨.content (.obj [("b", Json.str nowW.isoformat)]), false⟩) :=
  C4_write_through nowW "b" 30 [] ⟨.absent, false⟩
    (⟨30, .obj [("b", .str nowW.isoformat)]⟩,
      ⟨.content (.obj [("b", .str nowW.isoformat)]), false⟩)
    rfl (by decide) (by decide) (by decide) rfl rfl

/-- C7: when the write fails, `mark_posted` still returns normally with
the file system untouched, and the in-memory insert is not rolled back:
the id is in the resulting state for the rest of the process. -/
theorem C7_persist_failure (now : DateTime) (id : String) (r : Nat)
    (kvs : List (String × Json)) (fs : FS)
    (hstr : allStr kvs = true) (hnow : now.Valid) (hcut : (subDays now r).Valid)
    (hsane : ¬ chronLt now (subDays now r)) (hw : fs.writeFails = true) :
    mark_posted now id ⟨r, .obj kvs⟩ fs =
      .ok (⟨r, .obj ((setKey kvs id (.str now.isoformat)).filter
        (keepB (cutoffStr now r)))⟩, fs) ∧
    pyIn id (Json.obj ((setKey kvs id (.str now.isoformat)).filter
      (keepB (cutoffStr now r)))) = .ok true := by
  constructor
  · rw [mark_posted_obj now id r kvs fs hstr, hw, if_pos rfl]
  · have hmem : (id, Json.str now.isoformat) ∈
        (setKey kvs id (.str now.isoformat)).filter (keepB (cutoffStr now r)) := by
      refine List.mem_filter.2 ⟨setKey_mem kvs id _, ?_⟩
      show keepB (cutoffStr now r) (id, .str now.isoformat) = true
      simpa [keepB, cutoffStr] using (pyStrGe_iso_iff hnow hcut).2 hsane
    rw [show pyIn id
        (Json.obj ((setKey kvs id (.str now.isoformat)).filter (keepB (cutoffStr now r))))
        = .ok (memKeys ((setKey kvs id (.str now.isoformat)).filter
          (keepB (cutoffStr now r))) id) from rfl, memKeys_of_mem hmem]

/-- C7 witness: with a failing write, the concrete `mark_posted` call
still succeeds, leaves the file system alone and keeps the insert in
memory. -/
theorem C7_persist_failure_witness :
    mark_posted nowW "c" ⟨30, .obj []⟩ ⟨.absent, true⟩ =
      .ok (⟨30, .obj ((setKey [] "c" (.str nowW.isoformat)).filter
        (keepB (cutoffStr nowW 30)))⟩, ⟨.absent, true⟩) ∧
    pyIn "c" (Json.obj ((setKey [] "c" (.str nowW.isoformat)).filter
      (keepB (cutoffStr nowW 30)))) = .ok true :=
  C7_persist_failure nowW "c" 30 [] ⟨.absent, true⟩ rfl (by decide) (by decide)
    (by decide) rfl

/-- C8: marking the same id twice (string-valued dict ledger, unique
keys, sane clock) leaves `is_posted id` true and exactly one entry for
that id in the ledger. -/
theorem C8_idempotent (now : DateTime) (id : String) (r : Nat)
    (kvs : List (String × Json)) (fs fs1 : FS) (sm1 : SM) (p : SM × FS)
    (hstr : allStr kvs = true) (hnow : now.Valid) (hcut : (subDays now r).Valid)
    (hsane : ¬ chronLt now (subDays now r)) (hdup : countKey kvs id ≤ 1)
    (hrun1 : mark_posted now id ⟨r, .obj kvs⟩ fs = .ok (sm1, fs1))
    (hrun2 : mark_posted now id sm1 fs1 = .ok p) :
    countKey (stateEntries p.1) id = 1 ∧ pyIn id p.1.state = .ok true := by
  rw [mark_posted_obj now id r kvs fs hstr] at hrun1
  injection hrun1 with h1
  injection h1 with h1a h1b
  subst h1a
  have hstr1 : allStr ((setKey kvs id (.str now.isoformat)).filter
      (keepB (cutoffStr now r))) = true :=
    allStr_filter _ (allStr_setKey kvs id _ hstr)
  have hdup1 : countKey ((setKey kvs id (.str now.isoformat)).filter
      (keepB (cutoffStr now r))) id ≤ 1 :=
    le_trans (countKey_filter_le _ _ _) (le_of_eq (countKey_setKey id _ hdup))
  rw [mark_posted_obj now id r _ fs1 hstr1] at hrun2
  injection hrun2 with h2
  subst h2
  have hmem : (id, Json.str now.isoformat) ∈
      (setKey ((setKey kvs id (.str now.isoformat)).filter (keepB (cutoffStr now r)))
        id (.str now.isoformat)).filter (keepB (cutoffStr now r)) := by
    refine List.mem_filter.2 ⟨setKey_mem _ id _, ?_⟩
    show keepB (cutoffStr now r) (id, .str now.isoformat) = true
    simpa [keepB, cutoffStr] using (pyStrGe_iso_iff hnow hcut).2 hsane
  constructor
  · have hle : countKey ((setKey ((setKey kvs id (.str now.isoformat)).filter
        (keepB (cutoffStr now r))) id (.str now.isoformat)).filter
          (keepB (cutoffStr now r))) id ≤ 1 :=
      le_trans (countKey_filter_le _ _ _) (le_of_eq (countKey_setKey id _ hdup1))
    have hge := countKey_pos_of_mem hmem
    show countKey ((setKey ((setKey kvs id (.str now.isoformat)).filter
      (keepB (cutoffStr now r))) id (.str now.isoformat)).filter
        (keepB (cutoffStr now r))) id = 1
    omega
  · show pyIn id (Json.obj ((setKey ((setKey kvs id (.str now.isoformat)).filter
      (keepB (cutoffStr now r))) id (.str now.isoformat)).filter
        (keepB (cutoffStr now r)))) = .ok true
    rw [show pyIn id (Json.obj ((setKey ((setKey kvs id (.str now.isoformat)).filter
        (keepB (cutoffStr now r))) id (.str now.isoformat)).filter
          (keepB (cutoffStr now r))))
      = .ok (memKeys ((setKey ((setKey kvs id (.str now.isoformat)).filter
          (keepB (cutoffStr now r))) id (.str now.isoformat)).filter
            (keepB (cutoffStr now r))) id) from rfl, memKeys_of_mem hmem]

/-- C8 witness: two concrete `mark_posted "c"` calls leave exactly one
`"c"` entry and `is_posted "c"` true. -/
theorem C8_idempotent_witness :
    countKey (stateEntries (⟨30, .obj [("c", Json.str nowW.isoformat)]⟩ : SM)) "c" = 1 ∧
    pyIn "c" (Json.obj [("c", Json.str nowW.isoformat)]) = .ok true :=
  C8_idempotent nowW "c" 30 [] ⟨.absent, false⟩
    ⟨.content (.obj [("c", .str nowW.isoformat)]), false⟩
    ⟨30, .obj [("c", .str nowW.isoformat)]⟩
    (⟨30, .obj [("c", .str nowW.isoformat)]⟩,
      ⟨.content (.obj [("c", .str nowW.isoformat)]), false⟩)
    rfl (by decide) (by decide) (by decide) (by decide) rfl rfl

end BScan
